import Mathlib

/-!
# Verification of the `secure_openaiapi` secure memory engine

The repository exposes a Rust-implemented secure memory engine through a thin
Python package (`src/python/secure_openaiapi/__init__.py` re-exports
`SecureClient`, `SecureBytes`, `SecureMessage`) together with an example
caller (`src/secure_usage_example.py`).  The Rust core itself is not present
in the source tree, so the engine below is modelled from the specification
(spec.md §3–§7): a pinned allocator with zero-on-release, the single-owner
`SecureBytes` buffer, the validated `SecureMessage` composite, and the
`SecureClient` state machine.  The example caller is used as evidence for the
Python-visible binding surface (constructor keyword names, the
`__str__`/`__bytes__` accessors).

Machine bytes are modelled as `List Nat`; allocator state is explicit and is
threaded through every operation, so that instrumented-allocator audits
(live-region counts, all-zero checks) are decidable functions of the state.
-/

namespace SecureApi

/-- A byte string (each entry is one byte value). -/
abbrev Bytes := List Nat

/-- ASCII byte encoding of a literal string, used to write concrete inputs. -/
def bs (s : String) : Bytes := s.data.map (fun c => c.toNat)

/-- Modelled from the spec (§4.1): one pinned memory region managed by the
secure allocator.  `cap` is the full (granularity-rounded) capacity, `bytes`
its current content, `locked` the mlock pin flag, `live` whether the handle
is still owned (not yet released). -/
structure Region where
  cap : Nat
  bytes : Bytes
  locked : Bool
  live : Bool
deriving DecidableEq, Repr

/-- Modelled from the spec (§4.1): the state of the secure allocator, the
only globally shared resource.  `gran` is the fixed page-aligned rounding
granularity, `limit` the OS lockable-memory limit (`none` = not reached in
this process), `nextId` the next fresh handle, `regions` the handle table. -/
structure AllocState where
  gran : Nat
  limit : Option Nat
  nextId : Nat
  regions : List (Nat × Region)
deriving DecidableEq, Repr

/-- Errors of the engine, from the spec taxonomy (§7) plus the Python-level
`TypeError` raised by keyword-argument binding at the example's call sites. -/
inductive VErrKind where
  | unknownContentType
  | missingField
  | emptyContent
  | emptyMessages
  | emptyModel
deriving DecidableEq, Repr

inductive Err where
  | allocation
  | validation (k : VErrKind)
  | network
  | auth
  | httpStatus (code : Nat)
  | parse
  | useAfterClose
  | typeError (msg : String)
deriving DecidableEq, Repr

/-- Round `len` up to the allocator granularity (spec §4.1). -/
def roundUp (len gran : Nat) : Nat := ((len + gran - 1) / gran) * gran

namespace AllocState

/-- Look up the region currently recorded for a handle. -/
def find (st : AllocState) (h : Nat) : Option Region :=
  (st.regions.find? (fun p => p.1 == h)).map (fun p => p.2)

/-- The live (still-owned, pinned) regions — the instrumented allocator's
audit view. -/
def liveParts (st : AllocState) : List (Nat × Region) :=
  st.regions.filter (fun p => p.2.live)

/-- Number of live secure allocations reported by the allocator audit. -/
def liveCount (st : AllocState) : Nat := st.liveParts.length

/-- Total locked bytes, charged against the lockable-memory limit. -/
def lockedBytes (st : AllocState) : Nat :=
  st.liveParts.foldr (fun p acc => p.2.cap + acc) 0

/-- Point update of one handle's region (key-preserving). -/
def updateRegion (st : AllocState) (h : Nat) (f : Region → Region) : AllocState :=
  { st with regions := st.regions.map (fun p => (p.1, if p.1 = h then f p.2 else p.2)) }

/-- Whether a fresh allocation of (rounded) `len` bytes still fits under the
OS lockable-memory limit (spec §4.1). -/
def allocFits (st : AllocState) (len : Nat) : Bool :=
  match st.limit with
  | none => true
  | some l => st.lockedBytes + roundUp len st.gran ≤ l

/-- Modelled from the spec (§4.1): `allocate(len)` reserves a zero-initialized
region of at least `len` bytes (rounded to granularity), locks it, and fails
with `AllocationError` when the lockable-memory limit would be exceeded. -/
def allocate (st : AllocState) (len : Nat) : AllocState × Except Err Nat :=
  if st.allocFits len then
    ({ st with
        nextId := st.nextId + 1
        regions := (st.nextId,
          ⟨roundUp len st.gran, List.replicate (roundUp len st.gran) 0, true, true⟩)
          :: st.regions },
     .ok st.nextId)
  else (st, .error .allocation)

/-- Write `data` into a region (content padded with zeros to capacity). -/
def write (st : AllocState) (h : Nat) (data : Bytes) : AllocState :=
  st.updateRegion h (fun r => { r with bytes := data ++ List.replicate (r.cap - data.length) 0 })

/-- Modelled from the spec (§4.1): `release(handle)` overwrites the entire
region with zero, unlocks it, and gives up ownership. -/
def release (st : AllocState) (h : Nat) : AllocState :=
  st.updateRegion h (fun r => ⟨r.cap, List.replicate r.cap 0, false, false⟩)

/-- Handle freshness invariant: every recorded handle is below `nextId`. -/
def Fresh (st : AllocState) : Prop := ∀ p ∈ st.regions, p.1 < st.nextId

/-- Audit predicate: every released region still reads as all zero. -/
def DeadZero (st : AllocState) : Prop :=
  ∀ p ∈ st.regions, p.2.live = false → p.2.bytes = List.replicate p.2.cap 0

/-- Audit predicate at one handle: zeroed over the full capacity, unlocked,
and released. -/
def zeroedAt (st : AllocState) (h : Nat) : Prop :=
  ∀ p ∈ st.regions, p.1 = h →
    p.2.live = false ∧ p.2.locked = false ∧ p.2.bytes = List.replicate p.2.cap 0

end AllocState

instance (st : AllocState) : Decidable st.Fresh :=
  inferInstanceAs (Decidable (∀ p ∈ st.regions, p.1 < st.nextId))

instance (st : AllocState) : Decidable st.DeadZero :=
  inferInstanceAs
    (Decidable (∀ p ∈ st.regions, p.2.live = false → p.2.bytes = List.replicate p.2.cap 0))

instance (st : AllocState) (h : Nat) : Decidable (st.zeroedAt h) :=
  inferInstanceAs
    (Decidable (∀ p ∈ st.regions, p.1 = h →
      p.2.live = false ∧ p.2.locked = false ∧ p.2.bytes = List.replicate p.2.cap 0))

/-- Modelled from the spec (§3, §4.2): a single-ownership secret buffer; it
wraps one allocation handle and remembers its logical length. -/
structure SecureBytes where
  handle : Nat
  len : Nat
deriving DecidableEq, Repr

namespace SecureBytes

/-- Modelled from the spec (§4.2): `from_bytes(data)` copies `data` into a
freshly allocated pinned region of `data`'s length (rounded internally);
fails only via `AllocationError`. -/
def from_bytes (st : AllocState) (data : Bytes) : AllocState × Except Err SecureBytes :=
  match st.allocate data.length with
  | (st1, .error e) => (st1, .error e)
  | (st1, .ok h) => (st1.write h data, .ok ⟨h, data.length⟩)

/-- Modelled from the spec (§4.2): `borrow()` returns a scope-limited,
non-owning view over the logical bytes. -/
def borrow (sb : SecureBytes) (st : AllocState) : Bytes :=
  match st.find sb.handle with
  | none => []
  | some r => r.bytes.take sb.len

/-- Modelled from the spec (§4.2): destruction zeroes the full capacity and
releases the handle. -/
def drop (sb : SecureBytes) (st : AllocState) : AllocState :=
  st.release sb.handle

/-- Modelled from the example (`src/secure_usage_example.py`, §6 comments:
"You can access the data via the `__str__` or `__bytes__` methods"):
`bytes(secure_bytes)` materializes the full content as a new, caller-owned
Python `bytes` object outside the secure allocator. -/
def toBytesPy (sb : SecureBytes) (st : AllocState) : Bytes :=
  sb.borrow st

/-- Modelled from the spec (§4.2): `as_utf8_display()`, the best-effort lossy
decode for diagnostics (`__str__` in the example); it also produces a new
caller-owned string holding the content. -/
def as_utf8_display (sb : SecureBytes) (st : AllocState) : String :=
  String.mk ((sb.borrow st).map Char.ofNat)

end SecureBytes

/-- The read-accessor surface of `SecureBytes` as visible at the API boundary
(spec §4.2, §6 and the example's `__str__`/`__bytes__` usage). -/
inductive SBAccessor where
  | borrowView
  | lenQuery
  | toBytesPy
  | asUtf8Display
deriving DecidableEq, Repr

namespace SBAccessor

/-- Classification from the source semantics: `borrow()` is a scoped
non-owning view and `len()` returns no content, while Python's
`bytes(x)`/`str(x)` (spec's `as_utf8_display`) construct new caller-owned
objects containing the secret content. -/
def returnsOwningCopy : SBAccessor → Bool
  | .borrowView => false
  | .lenQuery => false
  | .toBytesPy => true
  | .asUtf8Display => true

/-- None of the `SecureBytes` accessors is the transport hand-off; the
transport boundary receives `borrow()` views held by `chat_completion`
(spec §4.4 step 4, §6). -/
def isTransportBoundary : SBAccessor → Bool
  | _ => false

end SBAccessor

/-- Modelled from the spec (§3): a content part, a closed tagged union whose
payloads are `SecureBytes`. -/
inductive ContentPart where
  | text (t : SecureBytes)
  | imageUrl (url : SecureBytes)
deriving DecidableEq, Repr

/-- The child buffer owned by a content part. -/
def ContentPart.sb : ContentPart → SecureBytes
  | .text t => t
  | .imageUrl u => u

/-- Modelled from the spec (§4.3) and the example's dictionaries: the
`image_url` sub-structure of a raw content specification. -/
structure ImageUrlSpec where
  url : Option Bytes
deriving DecidableEq, Repr

/-- Modelled from the spec (§4.3): a loosely-typed raw content specification
carrying a type tag and the type-appropriate optional raw byte fields;
unrecognized extra fields are ignored and hence not modelled. -/
structure RawContentSpec where
  type : String
  text : Option Bytes
  image_url : Option ImageUrlSpec
deriving DecidableEq, Repr

/-- Modelled from the spec (§4.3) validation rules: known tag, required field
present; checked once at construction. -/
def validateSpec (s : RawContentSpec) : Except Err Unit :=
  if s.type = "text" then
    match s.text with
    | some _ => .ok ()
    | none => .error (.validation .missingField)
  else if s.type = "image_url" then
    match s.image_url with
    | some iu =>
      match iu.url with
      | some _ => .ok ()
      | none => .error (.validation .missingField)
    | none => .error (.validation .missingField)
  else .error (.validation .unknownContentType)

/-- First validation error over a content sequence (construction-time check). -/
def validateContent : List RawContentSpec → Except Err Unit
  | [] => .ok ()
  | s :: rest =>
    match validateSpec s with
    | .error e => .error e
    | .ok () => validateContent rest

/-- Modelled from the spec (§3): a secure message — a role buffer plus an
ordered, non-empty sequence of content parts. -/
structure SecureMessage where
  role : SecureBytes
  content : List ContentPart
deriving DecidableEq, Repr

/-- Copy one validated raw specification's payload into secure memory. -/
def mkPart (st : AllocState) (s : RawContentSpec) : AllocState × Except Err ContentPart :=
  if s.type = "text" then
    match s.text with
    | some d =>
      match SecureBytes.from_bytes st d with
      | (st1, .ok sbv) => (st1, .ok (.text sbv))
      | (st1, .error e) => (st1, .error e)
    | none => (st, .error (.validation .missingField))
  else if s.type = "image_url" then
    match s.image_url with
    | some iu =>
      match iu.url with
      | some d =>
        match SecureBytes.from_bytes st d with
        | (st1, .ok sbv) => (st1, .ok (.imageUrl sbv))
        | (st1, .error e) => (st1, .error e)
      | none => (st, .error (.validation .missingField))
    | none => (st, .error (.validation .missingField))
  else (st, .error (.validation .unknownContentType))

/-- Copy every validated part into secure memory; on a later failure the
parts allocated so far are zeroed and released before the error propagates
(spec §7 cleanup-on-failure). -/
def allocParts (st : AllocState) : List RawContentSpec → AllocState × Except Err (List ContentPart)
  | [] => (st, .ok [])
  | s :: rest =>
    match mkPart st s with
    | (st1, .error e) => (st1, .error e)
    | (st1, .ok p) =>
      match allocParts st1 rest with
      | (st2, .error e) => ((ContentPart.sb p).drop st2, .error e)
      | (st2, .ok ps) => (st2, .ok (p :: ps))

namespace SecureMessage

/-- Modelled from the spec (§4.3): `new(role, content)` validates every raw
specification first (fail-fast, no secure memory allocated on a validation
failure), then copies the role and every field into fresh `SecureBytes`. -/
def new (st : AllocState) (role : Bytes) (content : List RawContentSpec) :
    AllocState × Except Err SecureMessage :=
  if content.isEmpty then (st, .error (.validation .emptyContent))
  else
    match validateContent content with
    | .error e => (st, .error e)
    | .ok () =>
      match SecureBytes.from_bytes st role with
      | (st1, .error e) => (st1, .error e)
      | (st1, .ok rb) =>
        match allocParts st1 content with
        | (st2, .error e) => (rb.drop st2, .error e)
        | (st2, .ok ps) => (st2, .ok ⟨rb, ps⟩)

/-- Drop a message: zero and release the role buffer and every part. -/
def drop (m : SecureMessage) (st : AllocState) : AllocState :=
  m.content.foldl (fun s p => (ContentPart.sb p).drop s) (m.role.drop st)

end SecureMessage

/-- A Python value passed as a keyword argument at the binding surface. -/
inductive PyVal where
  | bytes (b : Bytes)
  | specs (l : List RawContentSpec)
deriving DecidableEq, Repr

/-- Look up a keyword argument by name. -/
def lookupKw (kwargs : List (String × PyVal)) (name : String) : Option PyVal :=
  (kwargs.find? (fun p => p.1 == name)).map (fun p => p.2)

/-- Modelled from the spec (§6) and the example caller
(`src/secure_usage_example.py`, the `SecureMessage(role=..., content_list=...)`
calls): Python keyword binding for the `SecureMessage` constructor.  The
declared parameter names evidenced by the working example are `role` and
`content_list`; per Python semantics an unexpected keyword raises
`TypeError` before the constructor body runs. -/
def SecureMessage.newKw (st : AllocState) (kwargs : List (String × PyVal)) :
    AllocState × Except Err SecureMessage :=
  if kwargs.all (fun p => p.1 == "role" || p.1 == "content_list") then
    match lookupKw kwargs "role", lookupKw kwargs "content_list" with
    | some (.bytes r), some (.specs c) => SecureMessage.new st r c
    | _, _ => (st, .error (.typeError "missing or mistyped argument"))
  else (st, .error (.typeError "unexpected keyword argument"))

/-- Modelled from the spec (§3, §4.4): client state machine positions that
persist between calls (`InFlight` is transient inside `chat_completion`). -/
inductive ClientState where
  | ready
  | closed
deriving DecidableEq, Repr

/-- Modelled from the spec (§3, §4.4): the client owns two long-lived
credential buffers and its state-machine position. -/
structure SecureClient where
  state : ClientState
  baseUrl : SecureBytes
  apiKey : SecureBytes
deriving DecidableEq, Repr

/-- The transport collaborator (spec §6): receives url, auth and body views
and returns raw response bytes or a transport-layer error. -/
abbrev Transport := Bytes → Bytes → Bytes → Except Err Bytes

namespace SecureClient

/-- Modelled from the spec (§4.4): `new(base_url, api_key)` copies both
inputs into `SecureBytes` and transitions to Ready; on a failure of the
second copy the first buffer is zeroed and released. -/
def new (st : AllocState) (base_url api_key : Bytes) :
    AllocState × Except Err SecureClient :=
  match SecureBytes.from_bytes st base_url with
  | (st1, .error e) => (st1, .error e)
  | (st1, .ok bu) =>
    match SecureBytes.from_bytes st1 api_key with
    | (st2, .error e) => (bu.drop st2, .error e)
    | (st2, .ok ak) => (st2, .ok ⟨.ready, bu, ak⟩)

end SecureClient

/-- Auth header value serialized from the credential buffer via `borrow()`
reads only (spec §4.4 step 3). -/
def authHeader (st : AllocState) (c : SecureClient) : Bytes :=
  bs "Bearer " ++ c.apiKey.borrow st

/-- Wire form of one content part, read via `borrow()` (spec §4.3
`serialize_into`; the concrete shape is the external encoder's). -/
def serializePart (st : AllocState) (p : ContentPart) : Bytes :=
  match p with
  | .text t => bs "text:" ++ t.borrow st ++ [10]
  | .imageUrl u => bs "image_url:" ++ u.borrow st ++ [10]

/-- Wire form of one message: role then its parts, in order (spec §3). -/
def serializeMessage (st : AllocState) (m : SecureMessage) : Bytes :=
  bs "role:" ++ m.role.borrow st ++ [10] ++ (m.content.map (serializePart st)).flatten

/-- Outbound payload: credentials (auth header) and every message, all read
through borrows (spec §4.4 step 3). -/
def serializeRequest (st : AllocState) (c : SecureClient) (messages : List SecureMessage)
    (model : String) : Bytes :=
  authHeader st c ++ [10] ++ bs model ++ [10] ++ (messages.map (serializeMessage st)).flatten

/-- Result of one `chat_completion` call: the allocator state after the call,
the client after the call, how many times the transport collaborator was
invoked, and the outcome. -/
structure CCResult where
  st : AllocState
  client : SecureClient
  transportCalls : Nat
  result : Except Err SecureBytes
deriving Repr

/-- Modelled from the spec (§4.4): `chat_completion` — use-after-close guard,
validation, ephemeral outbound buffer, transport call on borrowed views,
response copied into a fresh `SecureBytes`, outbound buffer zeroed and
released on success and on every failure path. -/
def SecureClient.chat_completion (c : SecureClient) (st : AllocState) (transport : Transport)
    (messages : List SecureMessage) (model : String) : CCResult :=
  match c.state with
  | .closed => ⟨st, c, 0, .error .useAfterClose⟩
  | .ready =>
    if messages.isEmpty then ⟨st, c, 0, .error (.validation .emptyMessages)⟩
    else if model = "" then ⟨st, c, 0, .error (.validation .emptyModel)⟩
    else
      match SecureBytes.from_bytes st (serializeRequest st c messages model) with
      | (st1, .error e) => ⟨st1, c, 0, .error e⟩
      | (st1, .ok outb) =>
        match transport (c.baseUrl.borrow st1) (authHeader st1 c) (outb.borrow st1) with
        | .error e => ⟨outb.drop st1, c, 1, .error e⟩
        | .ok raw =>
          match SecureBytes.from_bytes st1 raw with
          | (st2, .error e) => ⟨outb.drop st2, c, 1, .error e⟩
          | (st2, .ok resp) => ⟨outb.drop st2, c, 1, .ok resp⟩

/-- Modelled from the spec (§4.4): `close()` zeroes and releases both
credential buffers and transitions to Closed; any call on a Closed client
fails with `UseAfterCloseError` without touching the allocator. -/
def SecureClient.close (c : SecureClient) (st : AllocState) :
    AllocState × SecureClient × Except Err Unit :=
  match c.state with
  | .closed => (st, c, .error .useAfterClose)
  | .ready => (c.apiKey.drop (c.baseUrl.drop st), { c with state := .closed }, .ok ())

/-- One call of a call sequence against a shared client. -/
structure Call where
  transport : Transport
  messages : List SecureMessage
  model : String

/-- Run a sequence of `chat_completion` calls on one client, threading the
allocator state and the client through. -/
def runCalls (c : SecureClient) (st : AllocState) : List Call → AllocState × SecureClient
  | [] => (st, c)
  | k :: rest =>
    let r := c.chat_completion st k.transport k.messages k.model
    runCalls r.client r.st rest

/-! ## Helper lemmas about the allocator state -/

/-- A key-preserving point update leaves every other key's entry alone. -/
theorem find?_map_update_ne (l : List (Nat × Region)) (h k : Nat) (f : Region → Region)
    (hne : k ≠ h) :
    (l.map (fun p => (p.1, if p.1 = h then f p.2 else p.2))).find? (fun p => p.1 == k)
      = l.find? (fun p => p.1 == k) := by
  induction l with
  | nil => rfl
  | cons a l ih =>
    obtain ⟨j, r⟩ := a
    rw [List.map_cons]
    by_cases hjk : j = k
    · have hjh : j ≠ h := by rw [hjk]; exact hne
      rw [List.find?_cons_of_pos _ (by simpa using hjk),
        List.find?_cons_of_pos _ (by simpa using hjk), if_neg hjh]
    · rw [List.find?_cons_of_neg _ (by simpa using hjk),
        List.find?_cons_of_neg _ (by simpa using hjk)]
      exact ih

/-- A key-preserving point update maps the entry found at the updated key. -/
theorem find?_map_update_self (l : List (Nat × Region)) (h : Nat) (f : Region → Region) :
    ((l.map (fun p => (p.1, if p.1 = h then f p.2 else p.2))).find?
        (fun p => p.1 == h)).map (fun p => p.2)
      = ((l.find? (fun p => p.1 == h)).map (fun p => p.2)).map f := by
  induction l with
  | nil => rfl
  | cons a l ih =>
    obtain ⟨j, r⟩ := a
    rw [List.map_cons]
    by_cases hj : j = h
    · rw [List.find?_cons_of_pos _ (by simpa using hj),
        List.find?_cons_of_pos _ (by simpa using hj), if_pos hj]
      rfl
    · rw [List.find?_cons_of_neg _ (by simpa using hj),
        List.find?_cons_of_neg _ (by simpa using hj)]
      exact ih

/-- When every key of the table is below `n`, a point update at `n` is the
identity. -/
theorem map_update_of_lt (l : List (Nat × Region)) (n : Nat) (f : Region → Region)
    (hl : ∀ p ∈ l, p.1 < n) :
    l.map (fun p => (p.1, if p.1 = n then f p.2 else p.2)) = l := by
  induction l with
  | nil => rfl
  | cons a l ih =>
    obtain ⟨j, r⟩ := a
    have hj : j < n := hl (j, r) (List.mem_cons_self _ _)
    rw [List.map_cons, if_neg (Nat.ne_of_lt hj),
      ih (fun p hp => hl p (List.mem_cons_of_mem _ hp))]

theorem find_updateRegion_self (st : AllocState) (h : Nat) (f : Region → Region) :
    (st.updateRegion h f).find h = (st.find h).map f := by
  simpa [AllocState.find, AllocState.updateRegion, Option.map_map, Function.comp]
    using find?_map_update_self st.regions h f

theorem find_updateRegion_ne (st : AllocState) (h k : Nat) (f : Region → Region)
    (hne : k ≠ h) : (st.updateRegion h f).find k = st.find k := by
  simp [AllocState.find, AllocState.updateRegion, find?_map_update_ne st.regions h k f hne]

/-- `from_bytes` on success: the returned buffer wraps the fresh handle, and
(under handle freshness) the new state is exactly the old table with one new
written region on top. -/
theorem from_bytes_ok {st : AllocState} {data : Bytes} {st' : AllocState} {sb : SecureBytes}
    (hf : st.Fresh) (h : SecureBytes.from_bytes st data = (st', .ok sb)) :
    sb = ⟨st.nextId, data.length⟩ ∧
    st' = { st with
      nextId := st.nextId + 1
      regions := (st.nextId,
        ⟨roundUp data.length st.gran,
         data ++ List.replicate (roundUp data.length st.gran - data.length) 0,
         true, true⟩) :: st.regions } := by
  simp only [SecureBytes.from_bytes] at h
  split at h
  next => simp at h
  next st1 hdl heq =>
    simp only [AllocState.allocate] at heq
    split at heq
    · simp only [Prod.mk.injEq, Except.ok.injEq] at heq h
      obtain ⟨hst1, hhdl⟩ := heq
      obtain ⟨hw, hsb⟩ := h
      subst hst1
      subst hhdl
      refine ⟨hsb.symm, ?_⟩
      rw [← hw]
      have hmap := map_update_of_lt st.regions st.nextId
        (fun r => { r with bytes := data ++ List.replicate (r.cap - data.length) 0 }) hf
      simp [AllocState.write, AllocState.updateRegion, hmap]
    · simp at heq

/-- `from_bytes` fails only with `AllocationError`, leaving the state
untouched. -/
theorem from_bytes_err {st : AllocState} {data : Bytes} {st' : AllocState} {e : Err}
    (h : SecureBytes.from_bytes st data = (st', .error e)) :
    st' = st ∧ e = .allocation := by
  simp only [SecureBytes.from_bytes] at h
  split at h
  next st1 e0 heq =>
    simp only [AllocState.allocate] at heq
    split at heq
    · simp at heq
    · simp only [Prod.mk.injEq, Except.error.injEq] at heq h
      exact ⟨(heq.1.trans h.1).symm, (heq.2.trans h.2).symm⟩
  next => simp at h

/-- After a release, the released handle's region audits as zeroed over the
full capacity, unlocked and dead. -/
theorem zeroedAt_release_self (st : AllocState) (h : Nat) :
    (st.release h).zeroedAt h := by
  intro p hp hph
  simp only [AllocState.release, AllocState.updateRegion, List.mem_map] at hp
  obtain ⟨⟨j, r⟩, hm, hpe⟩ := hp
  subst hpe
  simp only at hph
  simp [hph]

/-- Releasing any handle preserves the zeroed audit at any other (or the
same) handle. -/
theorem zeroedAt_release_pres (st : AllocState) (h k : Nat)
    (hz : st.zeroedAt k) : (st.release h).zeroedAt k := by
  intro p hp hpk
  simp only [AllocState.release, AllocState.updateRegion, List.mem_map] at hp
  obtain ⟨⟨j, r⟩, hm, hpe⟩ := hp
  subst hpe
  simp only at hpk
  by_cases hjh : j = h
  · simp [hjh]
  · simp only [if_neg hjh]
    exact hz (j, r) hm hpk

/-! ## Concrete states used by the witnesses -/

/-- A small allocator state holding one live pinned region with a secret. -/
def demoState : AllocState :=
  ⟨16, none, 1, [(0, ⟨16, bs "secret" ++ List.replicate 10 0, true, true⟩)]⟩

def demoSB : SecureBytes := ⟨0, 6⟩

def demoRegion : Region := ⟨16, bs "secret" ++ List.replicate 10 0, true, true⟩

/-- An empty allocator state with 16-byte granularity and no limit reached. -/
def state0 : AllocState := ⟨16, none, 0, []⟩

/-! ## C1 — zero-on-drop of SecureBytes -/

/-- C1: when a `SecureBytes` is destroyed, the full capacity of its
allocation — not just the logical length — is overwritten with zero bytes
and the handle is released: after `drop`, the buffer's handle audits as
all-zero over the whole capacity, unlocked and dead, and the region table
records exactly the zeroed, released region of the original capacity. -/
theorem c1_zero_on_drop (st : AllocState) (sb : SecureBytes) (r : Region)
    (hr : st.find sb.handle = some r) :
    (sb.drop st).zeroedAt sb.handle ∧
    (sb.drop st).find sb.handle = some ⟨r.cap, List.replicate r.cap 0, false, false⟩ := by
  refine ⟨zeroedAt_release_self st sb.handle, ?_⟩
  show (st.release sb.handle).find sb.handle = _
  rw [AllocState.release, find_updateRegion_self, hr, Option.map_some']

/-- Witness for C1 at a concrete six-byte secret in a 16-byte region. -/
theorem c1_zero_on_drop_witness :
    demoState.find demoSB.handle = some demoRegion ∧
    ((demoSB.drop demoState).zeroedAt demoSB.handle ∧
      (demoSB.drop demoState).find demoSB.handle
        = some ⟨demoRegion.cap, List.replicate demoRegion.cap 0, false, false⟩) :=
  ⟨by decide, c1_zero_on_drop demoState demoSB demoRegion (by decide)⟩

/-! ## C3 — from_bytes/borrow round trip -/

/-- C3: for every byte sequence, `from_bytes` can fail only via
`AllocationError`, and on success a subsequent `borrow` yields exactly the
input bytes, with the logical length equal to the input's length. -/
theorem c3_roundtrip (st : AllocState) (data : Bytes) :
    (∀ st' sb, SecureBytes.from_bytes st data = (st', .ok sb) →
        sb.borrow st' = data ∧ sb.len = data.length) ∧
    (∀ st' e, SecureBytes.from_bytes st data = (st', .error e) → e = .allocation) := by
  constructor
  · intro st' sb h
    simp only [SecureBytes.from_bytes] at h
    split at h
    next => simp at h
    next st1 hdl heq =>
      simp only [AllocState.allocate] at heq
      split at heq
      · simp only [Prod.mk.injEq, Except.ok.injEq] at heq h
        obtain ⟨hst1, hhdl⟩ := heq
        obtain ⟨hw, hsb⟩ := h
        subst hst1
        subst hhdl
        subst hsb
        rw [← hw]
        have hfind : (AllocState.write
            { st with
              nextId := st.nextId + 1
              regions := (st.nextId,
                ⟨roundUp data.length st.gran,
                 List.replicate (roundUp data.length st.gran) 0, true, true⟩)
                :: st.regions } st.nextId data).find st.nextId
            = some ⟨roundUp data.length st.gran,
                data ++ List.replicate (roundUp data.length st.gran - data.length) 0,
                true, true⟩ := by
          rw [AllocState.write, find_updateRegion_self]
          have hhead : (AllocState.find
              { st with
                nextId := st.nextId + 1
                regions := (st.nextId,
                  ⟨roundUp data.length st.gran,
                   List.replicate (roundUp data.length st.gran) 0, true, true⟩)
                  :: st.regions } st.nextId)
              = some ⟨roundUp data.length st.gran,
                  List.replicate (roundUp data.length st.gran) 0, true, true⟩ := by
            simp [AllocState.find]
          rw [hhead]
          simp
        constructor
        · show SecureBytes.borrow _ _ = data
          simp only [SecureBytes.borrow, hfind]
          exact List.take_left data _
        · rfl
      · simp at heq
  · intro st' e h
    exact (from_bytes_err h).2

/-- Witness for C3 at a concrete input. -/
theorem c3_roundtrip_witness :
    (∀ st' sb, SecureBytes.from_bytes state0 (bs "hi") = (st', .ok sb) →
        sb.borrow st' = bs "hi" ∧ sb.len = (bs "hi").length) ∧
    (∀ st' e, SecureBytes.from_bytes state0 (bs "hi") = (st', .error e) → e = .allocation) :=
  c3_roundtrip state0 (bs "hi")

/-! ## C5 — read-access surface of SecureBytes -/

def c5secret : Bytes := bs "sk-123"

/-- The `__bytes__` accessor demonstrated by the example yields exactly the
stored secret content as a detached byte sequence. -/
def c5exfil : Bool :=
  match SecureBytes.from_bytes state0 c5secret with
  | (st1, .ok sb) => sb.toBytesPy st1 == c5secret
  | (_, .error _) => false

/-- C5 counterexample: the claim says no API operation on `SecureBytes`
returns an owning copy of the secret content except the transport boundary;
but the `__bytes__` accessor (shown in `src/secure_usage_example.py` and
matching the spec's `as_utf8_display` diagnostic surface) is not the
transport boundary, is classified as returning an owning copy, and indeed
yields the exact secret content at a concrete input. -/
theorem c5_counterexample :
    SBAccessor.returnsOwningCopy .toBytesPy = true ∧
    SBAccessor.isTransportBoundary .toBytesPy = false ∧
    c5exfil = true := by
  refine ⟨rfl, rfl, ?_⟩
  decide

/-- C5 amended: the only accessors of `SecureBytes` that return an owning
copy of the content are the two explicit diagnostic accessors `__bytes__`
and `__str__`/`as_utf8_display`; every other read access is a borrow-style
non-owning view. -/
theorem c5_owning_copies_are_diagnostic (a : SBAccessor)
    (h : a.returnsOwningCopy = true) :
    a = .toBytesPy ∨ a = .asUtf8Display := by
  cases a <;> simp_all [SBAccessor.returnsOwningCopy]

/-- Witness for the amended C5. -/
theorem c5_owning_copies_witness :
    SBAccessor.returnsOwningCopy SBAccessor.asUtf8Display = true ∧
    (SBAccessor.asUtf8Display = SBAccessor.toBytesPy ∨
      SBAccessor.asUtf8Display = SBAccessor.asUtf8Display) :=
  ⟨by decide, c5_owning_copies_are_diagnostic SBAccessor.asUtf8Display (by decide)⟩

/-! ## C6 — SecureMessage constructor parameter name -/

def c6specText : RawContentSpec := ⟨"text", some (bs "hi"), none⟩

/-- C6 counterexample: the claim says the second constructor parameter is
named `content`; calling the constructor with a keyword argument named
`content` fails with a `TypeError` (the example caller in
`src/secure_usage_example.py` shows the parameter is `content_list`). -/
theorem c6_counterexample :
    (SecureMessage.newKw state0
        [("role", .bytes (bs "user")), ("content", .specs [c6specText])]).2
      = .error (.typeError "unexpected keyword argument") := rfl

theorem validateContent_ok (l : List RawContentSpec)
    (hv : ∀ s ∈ l, validateSpec s = .ok ()) : validateContent l = .ok () := by
  induction l with
  | nil => rfl
  | cons s rest ih =>
    have hs := hv s (List.mem_cons_self _ _)
    simp only [validateContent, hs]
    exact ih (fun t ht => hv t (List.mem_cons_of_mem _ ht))

theorem from_bytes_limit_none (st : AllocState) (data : Bytes) (hl : st.limit = none) :
    ∃ st1 sb, SecureBytes.from_bytes st data = (st1, .ok sb) ∧ st1.limit = none := by
  have hfit : st.allocFits data.length = true := by
    rw [AllocState.allocFits, hl]
  have ha : st.allocate data.length
      = ({ st with
            nextId := st.nextId + 1
            regions := (st.nextId,
              ⟨roundUp data.length st.gran,
               List.replicate (roundUp data.length st.gran) 0, true, true⟩) :: st.regions },
         .ok st.nextId) := by
    rw [AllocState.allocate, if_pos hfit]
  refine ⟨AllocState.write
      { st with
        nextId := st.nextId + 1
        regions := (st.nextId,
          ⟨roundUp data.length st.gran,
           List.replicate (roundUp data.length st.gran) 0, true, true⟩) :: st.regions }
      st.nextId data,
    ⟨st.nextId, data.length⟩, ?_, ?_⟩
  · simp only [SecureBytes.from_bytes, ha]
  · exact hl

theorem mkPart_limit_none (st : AllocState) (s : RawContentSpec) (hl : st.limit = none)
    (hv : validateSpec s = .ok ()) :
    ∃ st1 p, mkPart st s = (st1, .ok p) ∧ st1.limit = none := by
  by_cases h1 : s.type = "text"
  · cases hst : s.text with
    | none => simp [validateSpec, if_pos h1, hst] at hv
    | some d =>
      obtain ⟨st1, sb, hfb, hl1⟩ := from_bytes_limit_none st d hl
      refine ⟨st1, .text sb, ?_, hl1⟩
      simp only [mkPart, if_pos h1, hst, hfb]
  · by_cases h2 : s.type = "image_url"
    · cases hiu : s.image_url with
      | none => simp [validateSpec, if_neg h1, if_pos h2, hiu] at hv
      | some iu =>
        cases hu : iu.url with
        | none => simp [validateSpec, if_neg h1, if_pos h2, hiu, hu] at hv
        | some d =>
          obtain ⟨st1, sb, hfb, hl1⟩ := from_bytes_limit_none st d hl
          refine ⟨st1, .imageUrl sb, ?_, hl1⟩
          simp only [mkPart, if_neg h1, if_pos h2, hiu, hu, hfb]
    · simp [validateSpec, if_neg h1, if_neg h2] at hv

theorem allocParts_limit_none (st : AllocState) (l : List RawContentSpec)
    (hl : st.limit = none) (hv : ∀ s ∈ l, validateSpec s = .ok ()) :
    ∃ st2 ps, allocParts st l = (st2, .ok ps) ∧ st2.limit = none := by
  induction l generalizing st with
  | nil => exact ⟨st, [], rfl, hl⟩
  | cons s rest ih =>
    obtain ⟨st1, p, hmk, hl1⟩ := mkPart_limit_none st s hl (hv s (List.mem_cons_self _ _))
    obtain ⟨st2, ps, hrec, hl2⟩ := ih st1 hl1 (fun t ht => hv t (List.mem_cons_of_mem _ ht))
    refine ⟨st2, p :: ps, ?_, hl2⟩
    simp only [allocParts, hmk, hrec]

theorem new_limit_none (st : AllocState) (role : Bytes) (specs : List RawContentSpec)
    (hl : st.limit = none) (hne : specs ≠ [])
    (hv : ∀ s ∈ specs, validateSpec s = .ok ()) :
    ∃ st' m, SecureMessage.new st role specs = (st', .ok m) := by
  have hie : specs.isEmpty = false := by
    cases specs with
    | nil => exact absurd rfl hne
    | cons a l => rfl
  obtain ⟨st1, rb, hfb, hl1⟩ := from_bytes_limit_none st role hl
  obtain ⟨st2, ps, hap, _⟩ := allocParts_limit_none st1 specs hl1 hv
  refine ⟨st2, ⟨rb, ps⟩, ?_⟩
  simp [SecureMessage.new, hie, validateContent_ok specs hv, hfb, hap]

/-- C6 amended: the second constructor parameter accepting the content-part
sequence is named `content_list` (not `content`): for every role and every
non-empty sequence of well-formed content specifications, calling the
constructor with the `content_list` keyword succeeds (no allocation limit in
the way). -/
theorem c6_constructor_param (st : AllocState) (role : Bytes) (specs : List RawContentSpec)
    (hl : st.limit = none) (hne : specs ≠ [])
    (hv : ∀ s ∈ specs, validateSpec s = .ok ()) :
    ∃ st' m, SecureMessage.newKw st
        [("role", .bytes role), ("content_list", .specs specs)] = (st', .ok m) := by
  have hred : SecureMessage.newKw st [("role", .bytes role), ("content_list", .specs specs)]
      = SecureMessage.new st role specs := rfl
  rw [hred]
  exact new_limit_none st role specs hl hne hv

/-- Witness for the amended C6. -/
theorem c6_constructor_param_witness :
    state0.limit = none ∧ ([c6specText] ≠ []) ∧
    (∀ s ∈ [c6specText], validateSpec s = .ok ()) ∧
    ∃ st' m, SecureMessage.newKw state0
        [("role", .bytes (bs "user")), ("content_list", .specs [c6specText])]
      = (st', .ok m) :=
  ⟨rfl, by decide,
    by
      intro s hs
      rw [List.mem_singleton] at hs
      subst hs
      rfl,
    c6_constructor_param state0 (bs "user") [c6specText] rfl (by decide)
      (by
        intro s hs
        rw [List.mem_singleton] at hs
        subst hs
        rfl)⟩

/-! ## C7 — unknown content type fails fast with no allocation -/

theorem validateContent_unknown (pre post : List RawContentSpec) (s : RawContentSpec)
    (hpre : ∀ t ∈ pre, validateSpec t = .ok ())
    (h1 : s.type ≠ "text") (h2 : s.type ≠ "image_url") :
    validateContent (pre ++ s :: post) = .error (.validation .unknownContentType) := by
  induction pre with
  | nil =>
    simp only [List.nil_append, validateContent, validateSpec, if_neg h1, if_neg h2]
  | cons t pre ih =>
    have ht := hpre t (List.mem_cons_self _ _)
    simp only [List.cons_append, validateContent, ht]
    exact ih (fun u hu => hpre u (List.mem_cons_of_mem _ hu))

/-- C7: a content specification whose tag is outside the known set makes
`SecureMessage` construction fail with `ValidationError: UnknownContentType`
at construction time, and the allocator state is completely untouched — no
secure memory is allocated for the malformed part (nor for any other part of
the rejected message).  (`pre` are the earlier, individually valid parts.) -/
theorem c7_unknown_tag_fail_fast (st : AllocState) (role : Bytes)
    (pre post : List RawContentSpec) (s : RawContentSpec)
    (hpre : ∀ t ∈ pre, validateSpec t = .ok ())
    (h1 : s.type ≠ "text") (h2 : s.type ≠ "image_url") :
    SecureMessage.new st role (pre ++ s :: post)
      = (st, .error (.validation .unknownContentType)) := by
  have hie : (pre ++ s :: post).isEmpty = false := by cases pre <;> rfl
  simp [SecureMessage.new, hie, validateContent_unknown pre post s hpre h1 h2]

def c7spec : RawContentSpec := ⟨"unknown", some (bs "x"), none⟩

/-- Witness for C7 at the spec's own test vector (content type "unknown"). -/
theorem c7_unknown_tag_witness :
    (∀ t ∈ ([] : List RawContentSpec), validateSpec t = .ok ()) ∧
    c7spec.type ≠ "text" ∧ c7spec.type ≠ "image_url" ∧
    SecureMessage.new state0 (bs "user") ([] ++ c7spec :: [])
      = (state0, .error (.validation .unknownContentType)) :=
  ⟨by simp, by decide, by decide,
    c7_unknown_tag_fail_fast state0 (bs "user") [] [] c7spec (by simp)
      (by decide) (by decide)⟩

/-! ## Concrete clients and transports for the witnesses -/

/-- Allocator state holding the two credential regions of `demoClient`. -/
def credState : AllocState :=
  ⟨16, none, 2,
    [(1, ⟨16, bs "sk-123" ++ List.replicate 10 0, true, true⟩),
     (0, ⟨32, bs "https://api.example.com" ++ List.replicate 9 0, true, true⟩)]⟩

def demoClient : SecureClient := ⟨.ready, ⟨0, 23⟩, ⟨1, 6⟩⟩

def closedClient : SecureClient := ⟨.closed, ⟨0, 23⟩, ⟨1, 6⟩⟩

/-- A transport stub that always fails with `NetworkError`. -/
def nullTransport : Transport := fun _ _ _ => .error .network

/-- A transport stub that returns `b"pong"` for any request. -/
def pongTransport : Transport := fun _ _ _ => .ok (bs "pong")

def demoMsg : SecureMessage := ⟨⟨0, 4⟩, []⟩

/-! ## C8 — empty messages / empty model fail locally -/

/-- C8: on a Ready client, `chat_completion` with an empty message sequence
or an empty model string fails with a `ValidationError`, makes no transport
call, leaves the allocator untouched, and leaves the client unchanged. -/
theorem c8_validation_local (st : AllocState) (c : SecureClient) (transport : Transport)
    (messages : List SecureMessage) (model : String)
    (hr : c.state = .ready) (hv : messages = [] ∨ model = "") :
    (∃ k, (c.chat_completion st transport messages model).result = .error (.validation k)) ∧
    (c.chat_completion st transport messages model).transportCalls = 0 ∧
    (c.chat_completion st transport messages model).st = st ∧
    (c.chat_completion st transport messages model).client = c := by
  rcases hv with hv | hv
  · subst hv
    have hcc : c.chat_completion st transport [] model
        = ⟨st, c, 0, .error (.validation .emptyMessages)⟩ := by
      simp [SecureClient.chat_completion, hr]
    rw [hcc]
    exact ⟨⟨.emptyMessages, rfl⟩, rfl, rfl, rfl⟩
  · subst hv
    by_cases hm : messages.isEmpty = true
    · have hcc : c.chat_completion st transport messages ""
          = ⟨st, c, 0, .error (.validation .emptyMessages)⟩ := by
        simp [SecureClient.chat_completion, hr, hm]
      rw [hcc]
      exact ⟨⟨.emptyMessages, rfl⟩, rfl, rfl, rfl⟩
    · have hcc : c.chat_completion st transport messages ""
          = ⟨st, c, 0, .error (.validation .emptyModel)⟩ := by
        simp [SecureClient.chat_completion, hr, hm]
      rw [hcc]
      exact ⟨⟨.emptyModel, rfl⟩, rfl, rfl, rfl⟩

/-- Witness for C8: empty message list on a Ready client. -/
theorem c8_validation_local_witness :
    demoClient.state = .ready ∧
    (([] : List SecureMessage) = [] ∨ "model-x" = "") ∧
    ((∃ k, (demoClient.chat_completion credState nullTransport [] "model-x").result
        = .error (.validation k)) ∧
      (demoClient.chat_completion credState nullTransport [] "model-x").transportCalls = 0 ∧
      (demoClient.chat_completion credState nullTransport [] "model-x").st = credState ∧
      (demoClient.chat_completion credState nullTransport [] "model-x").client = demoClient) :=
  ⟨rfl, .inl rfl,
    c8_validation_local credState demoClient nullTransport [] "model-x" rfl (.inl rfl)⟩

/-! ## C9 — Closed is terminal -/

/-- C9: `close()` zeroes and releases both credential buffers and transitions
the client to Closed; on a Closed client, `chat_completion` fails with
`UseAfterCloseError` without touching the allocator or making a transport
call, and `close` is inert — no operation brings a Closed client back to
Ready. -/
theorem c9_closed_terminal (st : AllocState) (c : SecureClient) (transport : Transport)
    (messages : List SecureMessage) (model : String) :
    (c.state = .ready →
      (c.close st).2.1.state = .closed ∧
      (c.close st).1.zeroedAt c.baseUrl.handle ∧
      (c.close st).1.zeroedAt c.apiKey.handle) ∧
    (c.state = .closed →
      c.chat_completion st transport messages model = ⟨st, c, 0, .error .useAfterClose⟩ ∧
      (c.close st).1 = st ∧ (c.close st).2.1 = c ∧
      (c.close st).2.2 = .error .useAfterClose) := by
  constructor
  · intro hr
    have hcl : c.close st
        = (c.apiKey.drop (c.baseUrl.drop st), { c with state := .closed }, .ok ()) := by
      simp [SecureClient.close, hr]
    rw [hcl]
    refine ⟨rfl, ?_, ?_⟩
    · exact zeroedAt_release_pres (c.baseUrl.drop st) c.apiKey.handle c.baseUrl.handle
        (zeroedAt_release_self st c.baseUrl.handle)
    · exact zeroedAt_release_self (c.baseUrl.drop st) c.apiKey.handle
  · intro hc
    have hcc : c.chat_completion st transport messages model
        = ⟨st, c, 0, .error .useAfterClose⟩ := by
      simp [SecureClient.chat_completion, hc]
    have hcl : c.close st = (st, c, .error .useAfterClose) := by
      simp [SecureClient.close, hc]
    rw [hcc, hcl]
    exact ⟨rfl, rfl, rfl, rfl⟩

/-- Witness for C9: a Ready client closed, and calls on a Closed client. -/
theorem c9_closed_terminal_witness :
    ((demoClient.close credState).2.1.state = .closed ∧
      (demoClient.close credState).1.zeroedAt demoClient.baseUrl.handle ∧
      (demoClient.close credState).1.zeroedAt demoClient.apiKey.handle) ∧
    (closedClient.chat_completion credState nullTransport [] "model-x"
        = ⟨credState, closedClient, 0, .error .useAfterClose⟩ ∧
      (closedClient.close credState).1 = credState ∧
      (closedClient.close credState).2.1 = closedClient ∧
      (closedClient.close credState).2.2 = .error .useAfterClose) :=
  ⟨(c9_closed_terminal credState demoClient nullTransport [] "model-x").1 rfl,
   (c9_closed_terminal credState closedClient nullTransport [] "model-x").2 rfl⟩

/-! ## State-shape lemmas for the chat_completion paths -/

/-- Dropping the freshly allocated top region zeroes it in place (the rest
of the table, whose handles are older, is untouched). -/
theorem drop_prepend (st : AllocState) (R : Region) (n : Nat) (hf : st.Fresh) :
    SecureBytes.drop ⟨st.nextId, n⟩
        { st with
          nextId := st.nextId + 1
          regions := (st.nextId, R) :: st.regions }
      = { st with
          nextId := st.nextId + 1
          regions := (st.nextId, ⟨R.cap, List.replicate R.cap 0, false, false⟩)
            :: st.regions } := by
  have hmap := map_update_of_lt st.regions st.nextId
    (fun r => ⟨r.cap, List.replicate r.cap 0, false, false⟩) hf
  simp [SecureBytes.drop, AllocState.release, AllocState.updateRegion, hmap]

theorem fresh_prepend (st : AllocState) (R : Region) (hf : st.Fresh) :
    AllocState.Fresh
      { st with
        nextId := st.nextId + 1
        regions := (st.nextId, R) :: st.regions } := by
  intro p hp
  rcases List.mem_cons.1 hp with hp | hp
  · subst hp
    exact Nat.lt_succ_self _
  · exact Nat.lt_trans (hf p hp) (Nat.lt_succ_self _)

theorem fresh_updateRegion (st : AllocState) (h : Nat) (f : Region → Region)
    (hf : st.Fresh) : (st.updateRegion h f).Fresh := by
  intro p hp
  simp only [AllocState.updateRegion, List.mem_map] at hp
  obtain ⟨⟨j, r⟩, hm, hpe⟩ := hp
  subst hpe
  exact hf (j, r) hm

theorem find_prepend_ne (st : AllocState) (m : Nat) (R : Region) (k : Nat)
    (hk : k ≠ st.nextId) :
    AllocState.find
        { st with
          nextId := m
          regions := (st.nextId, R) :: st.regions } k
      = st.find k := by
  have hbeq : ((st.nextId, R).1 == k) = false := by
    simp only [beq_eq_false_iff_ne]
    exact fun h => hk h.symm
  show (List.find? (fun p => p.1 == k) ((st.nextId, R) :: st.regions)).map (fun p => p.2)
    = st.find k
  rw [List.find?_cons_of_neg _ (by simp [hbeq])]
  rfl

theorem liveParts_prepend_dead (st : AllocState) (m n cp : Nat) :
    AllocState.liveParts
      { st with
        nextId := m
        regions := (n, ⟨cp, List.replicate cp 0, false, false⟩) :: st.regions }
      = st.liveParts := by
  simp [AllocState.liveParts, List.filter_cons]

theorem deadZero_prepend_zero (st : AllocState) (m n cp : Nat) (hd : st.DeadZero) :
    AllocState.DeadZero
      { st with
        nextId := m
        regions := (n, ⟨cp, List.replicate cp 0, false, false⟩) :: st.regions } := by
  intro p hp hlive
  rcases List.mem_cons.1 hp with hp | hp
  · subst hp
    rfl
  · exact hd p hp hlive

/-! ## C2 — cleanup on every failure path of chat_completion -/

/-- C2: when `chat_completion` fails with any error other than
`UseAfterCloseError`, the client is returned unchanged and still Ready, the
set of live secure allocations afterwards is exactly the set before the call
(every buffer allocated during the failed call has been released), and every
released region — in particular any buffer allocated during the failed call
— audits as all-zero. -/
theorem c2_cleanup_on_failure (st : AllocState) (c : SecureClient) (transport : Transport)
    (messages : List SecureMessage) (model : String) (e : Err)
    (hf : st.Fresh) (hd : st.DeadZero)
    (he : (c.chat_completion st transport messages model).result = .error e)
    (hne : e ≠ .useAfterClose) :
    (c.chat_completion st transport messages model).client = c ∧
    (c.chat_completion st transport messages model).client.state = .ready ∧
    (c.chat_completion st transport messages model).st.liveParts = st.liveParts ∧
    (c.chat_completion st transport messages model).st.DeadZero := by
  cases hcs : c.state with
  | closed =>
    have hcc : c.chat_completion st transport messages model
        = ⟨st, c, 0, .error .useAfterClose⟩ := by
      simp [SecureClient.chat_completion, hcs]
    rw [hcc] at he
    simp only [Except.error.injEq] at he
    exact absurd he.symm hne
  | ready =>
    by_cases hm : messages.isEmpty = true
    · have hcc : c.chat_completion st transport messages model
          = ⟨st, c, 0, .error (.validation .emptyMessages)⟩ := by
        simp [SecureClient.chat_completion, hcs, hm]
      rw [hcc]
      exact ⟨rfl, hcs, rfl, hd⟩
    · by_cases hmo : model = ""
      · have hcc : c.chat_completion st transport messages model
            = ⟨st, c, 0, .error (.validation .emptyModel)⟩ := by
          simp [SecureClient.chat_completion, hcs, hm, hmo]
        rw [hcc]
        exact ⟨rfl, hcs, rfl, hd⟩
      · rcases hfb : SecureBytes.from_bytes st (serializeRequest st c messages model)
          with ⟨stA, res⟩
        cases res with
        | error e1 =>
          have hstA : stA = st := (from_bytes_err hfb).1
          have hcc : c.chat_completion st transport messages model
              = ⟨stA, c, 0, .error e1⟩ := by
            simp [SecureClient.chat_completion, hcs, hm, hmo, hfb]
          rw [hcc]
          subst hstA
          exact ⟨rfl, hcs, rfl, hd⟩
        | ok outb =>
          obtain ⟨hsb, hstA⟩ := from_bytes_ok hf hfb
          cases ht : transport (c.baseUrl.borrow stA) (authHeader stA c) (outb.borrow stA) with
          | error e2 =>
            have hcc : c.chat_completion st transport messages model
                = ⟨outb.drop stA, c, 1, .error e2⟩ := by
              simp [SecureClient.chat_completion, hcs, hm, hmo, hfb, ht]
            rw [hcc]
            subst hsb
            subst hstA
            rw [drop_prepend st _ _ hf]
            exact ⟨rfl, hcs, liveParts_prepend_dead st _ _ _,
              deadZero_prepend_zero st _ _ _ hd⟩
          | ok raw =>
            rcases hfb2 : SecureBytes.from_bytes stA raw with ⟨stB, res2⟩
            cases res2 with
            | error e3 =>
              have hstB : stB = stA := (from_bytes_err hfb2).1
              have hcc : c.chat_completion st transport messages model
                  = ⟨outb.drop stB, c, 1, .error e3⟩ := by
                simp [SecureClient.chat_completion, hcs, hm, hmo, hfb, ht, hfb2]
              rw [hcc]
              subst hstB
              subst hsb
              subst hstA
              rw [drop_prepend st _ _ hf]
              exact ⟨rfl, hcs, liveParts_prepend_dead st _ _ _,
                deadZero_prepend_zero st _ _ _ hd⟩
            | ok resp =>
              have hcc : c.chat_completion st transport messages model
                  = ⟨outb.drop stB, c, 1, .ok resp⟩ := by
                simp [SecureClient.chat_completion, hcs, hm, hmo, hfb, ht, hfb2]
              rw [hcc] at he
              simp at he

/-- Witness for C2: a failing transport on a Ready client with one message. -/
theorem c2_cleanup_on_failure_witness :
    credState.Fresh ∧ credState.DeadZero ∧
    (demoClient.chat_completion credState nullTransport [demoMsg] "model-x").result
      = .error .network ∧
    (Err.network ≠ Err.useAfterClose) ∧
    ((demoClient.chat_completion credState nullTransport [demoMsg] "model-x").client
        = demoClient ∧
      (demoClient.chat_completion credState nullTransport [demoMsg] "model-x").client.state
        = .ready ∧
      (demoClient.chat_completion credState nullTransport [demoMsg] "model-x").st.liveParts
        = credState.liveParts ∧
      (demoClient.chat_completion credState nullTransport [demoMsg] "model-x").st.DeadZero) :=
  ⟨by decide, by decide, rfl, by decide,
    c2_cleanup_on_failure credState demoClient nullTransport [demoMsg] "model-x" .network
      (by decide) (by decide) rfl (by decide)⟩

/-! ## C10 — credential buffers are a frame of chat_completion -/

/-- Abstract success properties of `from_bytes`: fresh handle, freshness
preserved, handle counter advanced, old handles untouched. -/
theorem from_bytes_props {st : AllocState} {data : Bytes} {st' : AllocState}
    {sb : SecureBytes} (hf : st.Fresh)
    (h : SecureBytes.from_bytes st data = (st', .ok sb)) :
    sb.handle = st.nextId ∧ st'.Fresh ∧ st.nextId < st'.nextId ∧
    ∀ k, k < st.nextId → st'.find k = st.find k := by
  obtain ⟨hsb, hst⟩ := from_bytes_ok hf h
  subst hst
  subst hsb
  refine ⟨rfl, fresh_prepend st _ hf, Nat.lt_succ_self _, ?_⟩
  intro k hk
  exact find_prepend_ne st _ _ k (Nat.ne_of_lt hk)

/-- One `chat_completion` call returns the client record unchanged, keeps the
allocator fresh, only advances the handle counter, and leaves every
pre-existing handle's region untouched. -/
theorem cc_preserves (st : AllocState) (c : SecureClient) (transport : Transport)
    (messages : List SecureMessage) (model : String) (hf : st.Fresh) :
    (c.chat_completion st transport messages model).client = c ∧
    (c.chat_completion st transport messages model).st.Fresh ∧
    st.nextId ≤ (c.chat_completion st transport messages model).st.nextId ∧
    ∀ k, k < st.nextId →
      (c.chat_completion st transport messages model).st.find k = st.find k := by
  cases hcs : c.state with
  | closed =>
    have hcc : c.chat_completion st transport messages model
        = ⟨st, c, 0, .error .useAfterClose⟩ := by
      simp [SecureClient.chat_completion, hcs]
    rw [hcc]
    exact ⟨rfl, hf, Nat.le_refl _, fun k _ => rfl⟩
  | ready =>
    by_cases hm : messages.isEmpty = true
    · have hcc : c.chat_completion st transport messages model
          = ⟨st, c, 0, .error (.validation .emptyMessages)⟩ := by
        simp [SecureClient.chat_completion, hcs, hm]
      rw [hcc]
      exact ⟨rfl, hf, Nat.le_refl _, fun k _ => rfl⟩
    · by_cases hmo : model = ""
      · have hcc : c.chat_completion st transport messages model
            = ⟨st, c, 0, .error (.validation .emptyModel)⟩ := by
          simp [SecureClient.chat_completion, hcs, hm, hmo]
        rw [hcc]
        exact ⟨rfl, hf, Nat.le_refl _, fun k _ => rfl⟩
      · rcases hfb : SecureBytes.from_bytes st (serializeRequest st c messages model)
          with ⟨stA, res⟩
        cases res with
        | error e1 =>
          have hstA : stA = st := (from_bytes_err hfb).1
          have hcc : c.chat_completion st transport messages model
              = ⟨stA, c, 0, .error e1⟩ := by
            simp [SecureClient.chat_completion, hcs, hm, hmo, hfb]
          rw [hcc]
          subst hstA
          exact ⟨rfl, hf, Nat.le_refl _, fun k _ => rfl⟩
        | ok outb =>
          obtain ⟨hh, hfA, hlt, hpres⟩ := from_bytes_props hf hfb
          cases ht : transport (c.baseUrl.borrow stA) (authHeader stA c) (outb.borrow stA) with
          | error e2 =>
            have hcc : c.chat_completion st transport messages model
                = ⟨outb.drop stA, c, 1, .error e2⟩ := by
              simp [SecureClient.chat_completion, hcs, hm, hmo, hfb, ht]
            rw [hcc]
            refine ⟨rfl, fresh_updateRegion stA _ _ hfA, Nat.le_of_lt hlt, ?_⟩
            intro k hk
            have hne : k ≠ outb.handle := by
              rw [hh]
              exact Nat.ne_of_lt hk
            have h1 : (outb.drop stA).find k = stA.find k :=
              find_updateRegion_ne stA outb.handle k _ hne
            rw [h1, hpres k hk]
          | ok raw =>
            rcases hfb2 : SecureBytes.from_bytes stA raw with ⟨stB, res2⟩
            cases res2 with
            | error e3 =>
              have hstB : stB = stA := (from_bytes_err hfb2).1
              have hcc : c.chat_completion st transport messages model
                  = ⟨outb.drop stB, c, 1, .error e3⟩ := by
                simp [SecureClient.chat_completion, hcs, hm, hmo, hfb, ht, hfb2]
              rw [hcc]
              subst hstB
              refine ⟨rfl, fresh_updateRegion stB _ _ hfA, Nat.le_of_lt hlt, ?_⟩
              intro k hk
              have hne : k ≠ outb.handle := by
                rw [hh]
                exact Nat.ne_of_lt hk
              have h1 : (outb.drop stB).find k = stB.find k :=
                find_updateRegion_ne stB outb.handle k _ hne
              rw [h1, hpres k hk]
            | ok resp =>
              obtain ⟨hh2, hfB, hlt2, hpres2⟩ := from_bytes_props hfA hfb2
              have hcc : c.chat_completion st transport messages model
                  = ⟨outb.drop stB, c, 1, .ok resp⟩ := by
                simp [SecureClient.chat_completion, hcs, hm, hmo, hfb, ht, hfb2]
              rw [hcc]
              refine ⟨rfl, fresh_updateRegion stB _ _ hfB,
                Nat.le_of_lt (Nat.lt_trans hlt hlt2), ?_⟩
              intro k hk
              have hne : k ≠ outb.handle := by
                rw [hh]
                exact Nat.ne_of_lt hk
              have h1 : (outb.drop stB).find k = stB.find k :=
                find_updateRegion_ne stB outb.handle k _ hne
              rw [h1, hpres2 k (Nat.lt_trans hk hlt), hpres k hk]

/-- C10: any sequence of `chat_completion` calls on one Ready client leaves
the client record unchanged and the contents of both credential buffers
(base URL and API key) exactly as they were before the calls — credentials
are read-only for the lifetime of the client. -/
theorem c10_credentials_frame (c : SecureClient) (st : AllocState) (calls : List Call)
    (_hr : c.state = .ready) (hf : st.Fresh)
    (hb : c.baseUrl.handle < st.nextId) (ha : c.apiKey.handle < st.nextId) :
    (runCalls c st calls).2 = c ∧
    c.baseUrl.borrow (runCalls c st calls).1 = c.baseUrl.borrow st ∧
    c.apiKey.borrow (runCalls c st calls).1 = c.apiKey.borrow st := by
  induction calls generalizing st with
  | nil => exact ⟨rfl, rfl, rfl⟩
  | cons k rest ih =>
    obtain ⟨hcl, hfr, hni, hfind⟩ := cc_preserves st c k.transport k.messages k.model hf
    have hrun : runCalls c st (k :: rest)
        = runCalls (c.chat_completion st k.transport k.messages k.model).client
            (c.chat_completion st k.transport k.messages k.model).st rest := rfl
    rw [hrun, hcl]
    obtain ⟨ih1, ih2, ih3⟩ := ih ((c.chat_completion st k.transport k.messages k.model).st)
      hfr (Nat.lt_of_lt_of_le hb hni) (Nat.lt_of_lt_of_le ha hni)
    refine ⟨ih1, ?_, ?_⟩
    · rw [ih2]
      simp only [SecureBytes.borrow, hfind c.baseUrl.handle hb]
    · rw [ih3]
      simp only [SecureBytes.borrow, hfind c.apiKey.handle ha]

/-- Witness for C10: one failing call on the demo client. -/
theorem c10_credentials_frame_witness :
    demoClient.state = .ready ∧ credState.Fresh ∧
    demoClient.baseUrl.handle < credState.nextId ∧
    demoClient.apiKey.handle < credState.nextId ∧
    ((runCalls demoClient credState [⟨nullTransport, [demoMsg], "model-x"⟩]).2 = demoClient ∧
      demoClient.baseUrl.borrow
          (runCalls demoClient credState [⟨nullTransport, [demoMsg], "model-x"⟩]).1
        = demoClient.baseUrl.borrow credState ∧
      demoClient.apiKey.borrow
          (runCalls demoClient credState [⟨nullTransport, [demoMsg], "model-x"⟩]).1
        = demoClient.apiKey.borrow credState) :=
  ⟨rfl, by decide, by decide, by decide,
    c10_credentials_frame demoClient credState [⟨nullTransport, [demoMsg], "model-x"⟩]
      rfl (by decide) (by decide) (by decide)⟩

/-! ## C4 — end-to-end scenario -/

/-- The spec's end-to-end test (§8), run through the model: build a Ready
client with the given credentials, one user message with text `b"hi"`, a
transport stub answering `b"pong"`; check the call succeeds with response
content exactly `b"pong"`, and that after dropping the response, the message
and the client, the allocator audits zero live secure allocations. -/
def c4check : Bool :=
  match SecureClient.new state0 (bs "https://api.example.com") (bs "sk-123") with
  | (_, .error _) => false
  | (st1, .ok c) =>
    match SecureMessage.new st1 (bs "user") [⟨"text", some (bs "hi"), none⟩] with
    | (_, .error _) => false
    | (st2, .ok m) =>
      let r := c.chat_completion st2 pongTransport [m] "model-x"
      match r.result with
      | .error _ => false
      | .ok resp =>
        (resp.borrow r.st == bs "pong") &&
        ((r.client.close (m.drop (resp.drop r.st))).1.liveCount == 0)

/-- C4: the end-to-end scenario returns a SecureBytes whose content equals
`b"pong"`, and after everything is dropped the allocator reports 0 live
secure allocations. -/
theorem c4_end_to_end : c4check = true := by decide

end SecureApi
